import Mathlib

/-!
Shallow embedding of the bridge testing blockchain of
src/protocol-units/bridge/shared/src/testing/blockchain.rs.

Machine integers (the u64 logical clock) are modelled as Nat with an
explicit % 2 ^ 64 where the source performs wrapping u64 arithmetic.
The modules client.rs, initiator_contract.rs, counterparty_contract.rs,
hasher.rs, rng.rs and types.rs of the same crate are not present in the
sources; the definitions taken from them are modelled from the spec and
marked as such in their doc comments.
-/

namespace Bridge

/-! ### Association-list maps (model of std HashMap) -/

def lookupA {α β : Type} [DecidableEq α] : List (α × β) → α → Option β
  | [], _ => none
  | (k, v) :: rest, a => if k = a then some v else lookupA rest a

def eraseA {α β : Type} [DecidableEq α] : List (α × β) → α → List (α × β)
  | [], _ => []
  | (k, v) :: rest, a => if k = a then eraseA rest a else (k, v) :: eraseA rest a

/-- HashMap.insert semantics: the new binding replaces any existing binding. -/
def insertA {α β : Type} [DecidableEq α] (m : List (α × β)) (k : α) (v : β) : List (α × β) :=
  (k, v) :: eraseA m k

theorem lookupA_eraseA_self {α β : Type} [DecidableEq α] (m : List (α × β)) (k : α) :
    lookupA (eraseA m k) k = none := by
  induction m with
  | nil => rfl
  | cons p rest ih =>
    obtain ⟨k0, v0⟩ := p
    by_cases h : k0 = k
    · simp [eraseA, h, ih]
    · simp [eraseA, lookupA, h, ih]

theorem lookupA_eraseA_ne {α β : Type} [DecidableEq α] (m : List (α × β)) (k a : α)
    (h : a ≠ k) : lookupA (eraseA m k) a = lookupA m a := by
  induction m with
  | nil => rfl
  | cons p rest ih =>
    obtain ⟨k0, v0⟩ := p
    by_cases hk : k0 = k
    · subst hk
      have hka : ¬ k0 = a := fun hh => h hh.symm
      simp [eraseA, lookupA, hka, ih]
    · by_cases ha : k0 = a
      · simp [eraseA, hk, lookupA, ha, h]
      · simp [eraseA, hk, lookupA, ha, ih]

theorem lookupA_insertA_self {α β : Type} [DecidableEq α] (m : List (α × β)) (k : α) (v : β) :
    lookupA (insertA m k v) k = some v := by
  simp [insertA, lookupA]

theorem lookupA_insertA_ne {α β : Type} [DecidableEq α] (m : List (α × β)) (k a : α) (v : β)
    (h : a ≠ k) : lookupA (insertA m k v) a = lookupA m a := by
  simp only [insertA, lookupA, if_neg (fun hh : k = a => h hh.symm)]
  exact lookupA_eraseA_ne m k a h

/-! ### Bridge data types

Modelled from the spec: the crate types module (BridgeTransferDetails,
LockDetails, Amount, BridgeTransferId, HashLock, TimeLock, GenUniqueHash)
is not under src.  Addresses stay a type parameter A; hash values,
transfer ids, secrets, time locks and amounts are Nat.  Field names and
order follow the struct literals visible in blockchain.rs. -/

structure BridgeTransferDetails (A : Type) where
  bridge_transfer_id : Nat
  initiator_address : A
  recipient_address : A
  hash_lock : Nat
  time_lock : Nat
  amount : Nat
deriving DecidableEq

structure LockDetails (A : Type) where
  bridge_transfer_id : Nat
  hash_lock : Nat
  time_lock : Nat
  recipient_address : A
  amount : Nat
deriving DecidableEq

inductive AbstractBlockchainEvent (A : Type) where
  | Noop
  | BridgeTransferInitiated (details : BridgeTransferDetails A)
  | BridgeTransferAssetsLocked (details : LockDetails A)
deriving DecidableEq

inductive InitiatorCall (A : Type) where
  | InitiateBridgeTransfer (initiator_address recipient_address : A)
      (amount time_lock hash_lock : Nat)
  | CompleteBridgeTransfer (bridge_transfer_id secret : Nat)
deriving DecidableEq

inductive CounterpartyCall (A : Type) where
  | LockBridgeTransfer (bridge_transfer_id hash_lock time_lock : Nat)
      (recipient_address : A) (amount : Nat)
deriving DecidableEq

inductive Transaction (A : Type) where
  | Initiator (call : InitiatorCall A)
  | Counterparty (call : CounterpartyCall A)
deriving DecidableEq

/-! ### Initiator contract -/

inductive CompletionError where
  | UnknownTransfer
  | InvalidSecret
  | Expired
deriving DecidableEq

structure SmartContractInitiator (A : Type) where
  pending_transfers : List (Nat × BridgeTransferDetails A)
deriving DecidableEq

/-- Modelled from the spec: initiator_contract.rs is not under src.
Registers a pending transfer record under a freshly allocated unique id.
The fresh id is passed in by the caller, standing for the unique-id
supply of GenUniqueHash, which the embedding threads as a counter. -/
def initiate_bridge_transfer {A : Type} [DecidableEq A] (sci : SmartContractInitiator A)
    (id : Nat) (initiator_address recipient_address : A)
    (amount time_lock hash_lock : Nat) : SmartContractInitiator A :=
  ⟨insertA sci.pending_transfers id
    ⟨id, initiator_address, recipient_address, hash_lock, time_lock, amount⟩⟩

/-- Modelled from the spec: initiator_contract.rs is not under src.
Fails with UnknownTransfer if the id is not pending, with InvalidSecret
if the hash of the secret differs from the stored hash lock, with
Expired if the current ledger time exceeds the stored time lock;
otherwise credits the recipient account by the transfer amount and
removes the record from the pending table.  The hash function of the
missing hasher module is a parameter, and the current ledger time is an
explicit argument because the Expired check of the spec needs it. -/
def complete_bridge_transfer {A : Type} [DecidableEq A] (hash : Nat → Nat) (time : Nat)
    (sci : SmartContractInitiator A) (accounts : List (A × Nat)) (id secret : Nat) :
    Except CompletionError (SmartContractInitiator A × List (A × Nat)) :=
  match lookupA sci.pending_transfers id with
  | none => .error .UnknownTransfer
  | some d =>
    if hash secret ≠ d.hash_lock then .error .InvalidSecret
    else if d.time_lock < time then .error .Expired
    else .ok (⟨eraseA sci.pending_transfers id⟩,
      insertA accounts d.recipient_address
        ((lookupA accounts d.recipient_address).getD 0 + d.amount))

/-! ### Counterparty contract -/

structure SmartContractCounterparty (A : Type) where
  locked_transfers : List (Nat × LockDetails A)
deriving DecidableEq

/-- Modelled from the spec: counterparty_contract.rs is not under src.
Stores a LockDetails record keyed by the caller-supplied id; always
succeeds. -/
def lock_bridge_transfer {A : Type} [DecidableEq A] (scc : SmartContractCounterparty A)
    (bridge_transfer_id hash_lock time_lock : Nat) (recipient_address : A)
    (amount : Nat) : SmartContractCounterparty A :=
  ⟨insertA scc.locked_transfers bridge_transfer_id
    ⟨bridge_transfer_id, hash_lock, time_lock, recipient_address, amount⟩⟩

/-! ### Seed-derivable RNG and fault-injecting client -/

/-- Modelled from the spec: rng.rs is not under src.  A pure generator
state; the concrete recurrence is an arbitrary 64-bit linear congruence,
what matters is that every draw is a deterministic function of the
state. -/
structure TestRng where
  state : Nat
deriving DecidableEq

def rngNext (r : TestRng) : Nat × TestRng :=
  let v := (r.state * 6364136223846793005 + 1442695040888963407) % 2 ^ 64
  (v, ⟨v⟩)

/-- Modelled from the spec: RngSeededClone.seeded_clone derives a child
generator whose whole output sequence is a deterministic function of the
parent state at the moment of the call, advancing the parent. -/
def seeded_clone (r : TestRng) : TestRng × TestRng :=
  let (v, r2) := rngNext r
  (⟨(v + 11400714819323198485) % 2 ^ 64⟩, r2)

inductive FaultDecision where
  | drop
  | corrupt
  | forward
deriving DecidableEq

/-- Modelled from the spec: client.rs is not under src.  The sender
handle into the ledger queue is an opaque tag; the f64 rates in [0,1]
are modelled as Nat thresholds out of 2 ^ 53 (a rate p stands for the
threshold p * 2 ^ 53). -/
structure AbstractBlockchainClient (A : Type) where
  senderTag : Nat
  rng : TestRng
  failure_rate : Nat
  false_positive_rate : Nat
deriving DecidableEq

/-- Modelled from the spec: the per-transaction decision of the client
publish operation.  The two probability checks are independent draws:
first the drop check, then (only when not dropped) the corrupt check. -/
def decideOne (failure_rate false_positive_rate : Nat) (r : TestRng) :
    FaultDecision × TestRng :=
  let (u1, r1) := rngNext r
  if u1 % 2 ^ 53 < failure_rate then (.drop, r1)
  else
    let (u2, r2) := rngNext r1
    if u2 % 2 ^ 53 < false_positive_rate then (.corrupt, r2) else (.forward, r2)

/-- Modelled from the spec: the ordered drop/corrupt decisions a client
makes over a list of submitted transactions, threading its RNG. -/
def decideList {A : Type} (failure_rate false_positive_rate : Nat) (r : TestRng) :
    List (Transaction A) → List FaultDecision
  | [] => []
  | _ :: txs =>
    let (d, r2) := decideOne failure_rate false_positive_rate r
    d :: decideList failure_rate false_positive_rate r2 txs

def clientDecisions {A : Type} (c : AbstractBlockchainClient A)
    (txs : List (Transaction A)) : List FaultDecision :=
  decideList c.failure_rate c.false_positive_rate c.rng txs

/-! ### The simulated ledger

The AbstractBlockchain struct of blockchain.rs.  The unbounded mpsc
transaction channel is a FIFO list plus a closed flag (all senders
dropped); each registered event listener is its own unbounded channel,
kept here as the list of events delivered to it plus a closed flag
(receiver dropped) and, as ghost instrumentation, the number of events
that had been appended to the log when the listener was registered.
The ghost fields nextId (the GenUniqueHash supply), appendedLog (every
event ever pushed onto events, in push order) and yieldedLog (every
event yielded by poll_next, in yield order) record history and never
influence behaviour. -/

structure Listener (A : Type) where
  received : List (AbstractBlockchainEvent A)
  closed : Bool
  regIndex : Nat
deriving DecidableEq

structure AbstractBlockchain (A : Type) where
  name : String
  time : Nat
  accounts : List (A × Nat)
  events : List (AbstractBlockchainEvent A)
  rng : TestRng
  initiater_contract : SmartContractInitiator A
  counterparty_contract : SmartContractCounterparty A
  queue : List (Transaction A)
  queueClosed : Bool
  event_listeners : List (Listener A)
  wakerRegistered : Bool
  nextId : Nat
  appendedLog : List (AbstractBlockchainEvent A)
  yieldedLog : List (AbstractBlockchainEvent A)
deriving DecidableEq

namespace AbstractBlockchain

def new {A : Type} (rng : TestRng) (name : String) : AbstractBlockchain A :=
  { name := name
    time := 0
    accounts := []
    events := []
    rng := rng
    initiater_contract := ⟨[]⟩
    counterparty_contract := ⟨[]⟩
    queue := []
    queueClosed := false
    event_listeners := []
    wakerRegistered := false
    nextId := 0
    appendedLog := []
    yieldedLog := [] }

/-- add_event_listener pushes a fresh unbounded sender onto
event_listeners and hands the receiver out; the model returns the index
of the new listener as the receiver handle. -/
def add_event_listener {A : Type} (c : AbstractBlockchain A) :
    AbstractBlockchain A × Nat :=
  ({ c with event_listeners :=
      c.event_listeners ++ [⟨[], false, c.appendedLog.length⟩] },
   c.event_listeners.length)

/-- forward_time does self.time += duration on a u64: wrapping Nat
addition modulo 2 ^ 64. -/
def forward_time {A : Type} (c : AbstractBlockchain A) (duration : Nat) :
    AbstractBlockchain A :=
  { c with time := (c.time + duration) % 2 ^ 64 }

def add_account {A : Type} [DecidableEq A] (c : AbstractBlockchain A)
    (address : A) (amount : Nat) : AbstractBlockchain A :=
  { c with accounts := insertA c.accounts address amount }

def get_balance {A : Type} [DecidableEq A] (c : AbstractBlockchain A)
    (address : A) : Option Nat :=
  lookupA c.accounts address

/-- client clones the transaction sender and derives a child RNG by
seeded_clone, which advances the ledger RNG. -/
def client {A : Type} (c : AbstractBlockchain A)
    (failure_rate false_positive_rate : Nat) :
    AbstractBlockchainClient A × AbstractBlockchain A :=
  let (child, parent2) := seeded_clone c.rng
  (⟨0, child, failure_rate, false_positive_rate⟩, { c with rng := parent2 })

end AbstractBlockchain

/-! ### The poll cycle -/

inductive RecvPoll (A : Type) where
  | readySome (tx : Transaction A)
  | readyNone
  | pending
deriving DecidableEq

/-- transaction_receiver.poll_next_unpin: Ready(Some) with the oldest
queued transaction, Ready(None) when the queue is empty and every
sender has been dropped, Pending when it is empty but still open. -/
def recv_poll {A : Type} (c : AbstractBlockchain A) :
    RecvPoll A × AbstractBlockchain A :=
  match c.queue with
  | tx :: rest => (.readySome tx, { c with queue := rest })
  | [] => if c.queueClosed then (.readyNone, c) else (.pending, c)

/-- The transaction-dispatch phase of poll_next (the body of the
`if let Poll::Ready(Some(transaction))` block): only a Ready(Some)
receiver poll dispatches; Ready(None) and Pending fall through alike.
An initiation lets the initiator contract register the transfer under
one freshly generated id and then pushes a BridgeTransferInitiated
event built around a second, separately generated id, as in the source;
a completion passes the result of complete_bridge_transfer nowhere
(the source discards it); a lock registers and pushes
BridgeTransferAssetsLocked. -/
def dispatch {A : Type} [DecidableEq A] (hash : Nat → Nat)
    (c : AbstractBlockchain A) : AbstractBlockchain A :=
  match recv_poll c with
  | (.readySome tx, c1) =>
    match tx with
    | .Initiator (.InitiateBridgeTransfer initiator_address recipient_address
        amount time_lock hash_lock) =>
      let pendingId := c1.nextId
      let sci := initiate_bridge_transfer c1.initiater_contract pendingId
        initiator_address recipient_address amount time_lock hash_lock
      let eventId := c1.nextId + 1
      let ev := AbstractBlockchainEvent.BridgeTransferInitiated
        ⟨eventId, initiator_address, recipient_address, hash_lock, time_lock, amount⟩
      { c1 with initiater_contract := sci
                nextId := c1.nextId + 2
                events := c1.events ++ [ev]
                appendedLog := c1.appendedLog ++ [ev] }
    | .Initiator (.CompleteBridgeTransfer bridge_transfer_id secret) =>
      match complete_bridge_transfer hash c1.time c1.initiater_contract
          c1.accounts bridge_transfer_id secret with
      | .ok (sci, accounts) =>
        { c1 with initiater_contract := sci, accounts := accounts }
      | .error _ => c1
    | .Counterparty (.LockBridgeTransfer bridge_transfer_id hash_lock
        time_lock recipient_address amount) =>
      let scc := lock_bridge_transfer c1.counterparty_contract
        bridge_transfer_id hash_lock time_lock recipient_address amount
      let ev := AbstractBlockchainEvent.BridgeTransferAssetsLocked
        ⟨bridge_transfer_id, hash_lock, time_lock, recipient_address, amount⟩
      { c1 with counterparty_contract := scc
                events := c1.events ++ [ev]
                appendedLog := c1.appendedLog ++ [ev] }
  | (_, c1) => c1

/-- The listener fan-out loop: listener.unbounded_send(event.clone())
.expect("listener dropped").  Sending into a closed channel makes the
expect panic, modelled as an error of the whole poll. -/
def sendAll {A : Type} (ls : List (Listener A)) (e : AbstractBlockchainEvent A) :
    Except String (List (Listener A)) :=
  match ls with
  | [] => .ok []
  | l :: rest =>
    if l.closed then .error "listener dropped"
    else
      match sendAll rest e with
      | .ok rest2 => .ok ({ l with received := l.received ++ [e] } :: rest2)
      | .error msg => .error msg

inductive PollResult (A : Type) where
  | readySome (e : AbstractBlockchainEvent A)
  | readyNone
  | pending
deriving DecidableEq

/-- The emit phase of poll_next: events.pop takes the most recently
pushed event (Vec pop is last-in first-out), the fan-out clones it to
every listener, and the event is yielded; with an empty log the waker
is registered and the poll reports Pending. -/
def pollEmit {A : Type} (c : AbstractBlockchain A) :
    Except String (AbstractBlockchain A × PollResult A) :=
  match c.events.getLast? with
  | some e =>
    match sendAll c.event_listeners e with
    | .ok ls => .ok ({ c with events := c.events.dropLast
                              event_listeners := ls
                              yieldedLog := c.yieldedLog ++ [e] }, .readySome e)
    | .error msg => .error msg
  | none => .ok ({ c with wakerRegistered := true }, .pending)

/-- Stream::poll_next for AbstractBlockchain: one dispatch phase then
the emit phase. -/
def poll_next {A : Type} [DecidableEq A] (hash : Nat → Nat)
    (c : AbstractBlockchain A) : Except String (AbstractBlockchain A × PollResult A) :=
  pollEmit (dispatch hash c)

/-- Future::poll for AbstractBlockchain: Ready(()) exactly on a
Ready(None) stream poll, Pending otherwise.  The Bool records whether
the future completed. -/
def futurePoll {A : Type} [DecidableEq A] (hash : Nat → Nat)
    (c : AbstractBlockchain A) : Except String (AbstractBlockchain A × Bool) :=
  match poll_next hash c with
  | .ok (c2, .readyNone) => .ok (c2, true)
  | .ok (c2, _) => .ok (c2, false)
  | .error msg => .error msg

/-! ### Runs of the ledger

One run is a sequence of the actions the environment can perform on a
live ledger: submitting a transaction through a sender handle, driving
one poll cycle, registering a listener, dropping the receiver handle
of a registered listener (closing its channel), advancing the clock,
funding an account.  A poll panic (the listener-dropped expect) aborts
the run. -/

inductive Op (A : Type) where
  | submit (tx : Transaction A)
  | poll
  | addListener
  | dropListener (i : Nat)
  | forwardTime (d : Nat)
  | addAccount (address : A) (amount : Nat)

/-- Dropping the receiver handle of listener i closes its channel: the
sender stays registered in event_listeners (the source never removes
senders) but any later send into it panics. -/
def closeReceiver {A : Type} : List (Listener A) → Nat → List (Listener A)
  | [], _ => []
  | l :: rest, 0 => { l with closed := true } :: rest
  | l :: rest, Nat.succ n => l :: closeReceiver rest n

def applyOp {A : Type} [DecidableEq A] (hash : Nat → Nat)
    (c : AbstractBlockchain A) : Op A → Except String (AbstractBlockchain A)
  | .submit tx => .ok { c with queue := c.queue ++ [tx] }
  | .poll =>
    match poll_next hash c with
    | .ok (c2, _) => .ok c2
    | .error msg => .error msg
  | .addListener => .ok (c.add_event_listener).1
  | .dropListener i =>
    .ok { c with event_listeners := closeReceiver c.event_listeners i }
  | .forwardTime d => .ok (c.forward_time d)
  | .addAccount address amount => .ok (c.add_account address amount)

def runFrom {A : Type} [DecidableEq A] (hash : Nat → Nat) :
    AbstractBlockchain A → List (Op A) → Except String (AbstractBlockchain A)
  | c, [] => .ok c
  | c, op :: ops =>
    match applyOp hash c op with
    | .ok c2 => runFrom hash c2 ops
    | .error msg => .error msg

def run {A : Type} [DecidableEq A] (hash : Nat → Nat) (rng : TestRng)
    (name : String) (ops : List (Op A)) : Except String (AbstractBlockchain A) :=
  runFrom hash (AbstractBlockchain.new rng name) ops

/-! ### The reachable-state invariant -/

def openListeners {A : Type} (c : AbstractBlockchain A) : Prop :=
  ∀ l ∈ c.event_listeners, l.closed = false

/-- The invariant every state reached by a completed (non-panicking)
run satisfies: the event log is drained within each poll cycle, the
yielded history equals the appended history, no Noop is ever appended,
and each listener holds exactly the appended events from its
registration point on, in order. -/
def ChainInv {A : Type} (c : AbstractBlockchain A) : Prop :=
  c.events = [] ∧
  c.yieldedLog = c.appendedLog ∧
  (∀ e ∈ c.appendedLog, e ≠ AbstractBlockchainEvent.Noop) ∧
  ∀ l ∈ c.event_listeners,
    l.regIndex ≤ c.appendedLog.length ∧
    l.received = c.appendedLog.drop l.regIndex

theorem chainInv_new {A : Type} (rng : TestRng) (name : String) :
    ChainInv (AbstractBlockchain.new (A := A) rng name) := by
  refine ⟨rfl, rfl, ?_, ?_⟩
  · intro e he
    simp [AbstractBlockchain.new] at he
  · intro l hl
    simp [AbstractBlockchain.new] at hl

theorem sendAll_open {A : Type} (ls : List (Listener A))
    (e : AbstractBlockchainEvent A) (h : ∀ l ∈ ls, l.closed = false) :
    sendAll ls e = .ok (ls.map fun l => { l with received := l.received ++ [e] }) := by
  induction ls with
  | nil => rfl
  | cons l rest ih =>
    have hl : l.closed = false := h l (List.mem_cons_self l rest)
    have hrest : ∀ x ∈ rest, x.closed = false :=
      fun x hx => h x (List.mem_cons_of_mem l hx)
    simp [sendAll, hl, ih hrest]

/-- A fan-out that did not panic delivered the event to every
registered listener. -/
theorem sendAll_ok_eq {A : Type} (ls : List (Listener A))
    (e : AbstractBlockchainEvent A) (ls2 : List (Listener A))
    (h : sendAll ls e = .ok ls2) :
    ls2 = ls.map fun l => { l with received := l.received ++ [e] } := by
  induction ls generalizing ls2 with
  | nil =>
    injection h with h2
    simp [h2.symm]
  | cons l rest ih =>
    unfold sendAll at h
    cases hcl : l.closed with
    | true =>
      rw [hcl] at h
      simp at h
    | false =>
      rw [hcl] at h
      simp only [Bool.false_eq_true, if_false] at h
      cases hs : sendAll rest e with
      | ok r2 =>
        rw [hs] at h
        injection h with h2
        simp [h2.symm, ih r2 hs, hcl]
      | error msg =>
        rw [hs] at h
        cases h

/-- Closing a receiver changes no delivered-events list and no
registration index of any listener. -/
theorem mem_closeReceiver {A : Type} (ls : List (Listener A)) (i : Nat)
    (l : Listener A) (h : l ∈ closeReceiver ls i) :
    ∃ l0 ∈ ls, l.received = l0.received ∧ l.regIndex = l0.regIndex := by
  induction ls generalizing i with
  | nil =>
    simp [closeReceiver] at h
  | cons a rest ih =>
    cases i with
    | zero =>
      simp only [closeReceiver] at h
      rcases List.mem_cons.mp h with heq | hm
      · exact ⟨a, List.mem_cons_self a rest, by rw [heq], by rw [heq]⟩
      · exact ⟨l, List.mem_cons_of_mem a hm, rfl, rfl⟩
    | succ n =>
      simp only [closeReceiver] at h
      rcases List.mem_cons.mp h with heq | hm
      · exact ⟨a, List.mem_cons_self a rest, by rw [heq], by rw [heq]⟩
      · obtain ⟨l0, h0, h1, h2⟩ := ih n hm
        exact ⟨l0, List.mem_cons_of_mem a h0, h1, h2⟩

/-- What one dispatch phase can do: listeners, yielded history and the
clock are untouched; the event log and the appended history either stay
as they are or both gain the same single non-Noop event at the end. -/
theorem dispatch_spec {A : Type} [DecidableEq A] (hash : Nat → Nat)
    (c : AbstractBlockchain A) :
    (dispatch hash c).event_listeners = c.event_listeners ∧
    (dispatch hash c).yieldedLog = c.yieldedLog ∧
    (dispatch hash c).time = c.time ∧
    (((dispatch hash c).events = c.events ∧
        (dispatch hash c).appendedLog = c.appendedLog) ∨
      ∃ ev, ev ≠ AbstractBlockchainEvent.Noop ∧
        (dispatch hash c).events = c.events ++ [ev] ∧
        (dispatch hash c).appendedLog = c.appendedLog ++ [ev]) := by
  cases hq : c.queue with
  | nil =>
    by_cases hc : c.queueClosed <;> simp [dispatch, recv_poll, hq, hc]
  | cons tx rest =>
    cases tx with
    | Initiator call =>
      cases call with
      | InitiateBridgeTransfer i r a tl hl =>
        refine ⟨?_, ?_, ?_, Or.inr
          ⟨AbstractBlockchainEvent.BridgeTransferInitiated
            ⟨c.nextId + 1, i, r, hl, tl, a⟩, ?_, ?_, ?_⟩⟩ <;>
          simp [dispatch, recv_poll, hq]
      | CompleteBridgeTransfer id s =>
        cases hres : complete_bridge_transfer hash c.time c.initiater_contract
            c.accounts id s with
        | ok p =>
          obtain ⟨sci, accounts⟩ := p
          simp [dispatch, recv_poll, hq, hres]
        | error e =>
          simp [dispatch, recv_poll, hq, hres]
    | Counterparty call =>
      cases call with
      | LockBridgeTransfer id hl tl r a =>
        refine ⟨?_, ?_, ?_, Or.inr
          ⟨AbstractBlockchainEvent.BridgeTransferAssetsLocked
            ⟨id, hl, tl, r, a⟩, ?_, ?_, ?_⟩⟩ <;>
          simp [dispatch, recv_poll, hq]

/-- The emit phase never touches the clock, the accounts, the contract
tables, the queue or the appended history. -/
theorem pollEmit_preserves {A : Type} (c c2 : AbstractBlockchain A)
    (r : PollResult A) (h : pollEmit c = .ok (c2, r)) :
    c2.time = c.time ∧ c2.accounts = c.accounts ∧
    c2.initiater_contract = c.initiater_contract ∧
    c2.queue = c.queue ∧ c2.appendedLog = c.appendedLog := by
  unfold pollEmit at h
  cases hg : c.events.getLast? with
  | none =>
    simp [hg] at h
    obtain ⟨h1, _⟩ := h
    subst h1
    exact ⟨rfl, rfl, rfl, rfl, rfl⟩
  | some e =>
    simp [hg] at h
    cases hs : sendAll c.event_listeners e with
    | ok ls =>
      simp [hs] at h
      obtain ⟨h1, _⟩ := h
      subst h1
      exact ⟨rfl, rfl, rfl, rfl, rfl⟩
    | error msg => simp [hs] at h

theorem drop_append_of_le {α : Type} (l1 l2 : List α) (n : Nat)
    (h : n ≤ l1.length) : (l1 ++ l2).drop n = l1.drop n ++ l2 := by
  induction l1 generalizing n with
  | nil =>
    cases Nat.le_zero.mp h
    rfl
  | cons a rest ih =>
    cases n with
    | zero => rfl
    | succ m => exact ih m (Nat.le_of_succ_le_succ h)

/-- Every run step that does not panic keeps the invariant: a
successful poll with an event implies the fan-out reached every
registered listener, and dropping a receiver loses no past delivery. -/
theorem applyOp_preserves_inv {A : Type} [DecidableEq A] (hash : Nat → Nat)
    (c c2 : AbstractBlockchain A) (op : Op A) (h : ChainInv c)
    (hok : applyOp hash c op = .ok c2) : ChainInv c2 := by
  obtain ⟨hev, hyield, hnoop, hlis⟩ := h
  cases op with
  | submit tx =>
    injection hok with h2
    subst h2
    exact ⟨hev, hyield, hnoop, hlis⟩
  | addListener =>
    injection hok with h2
    subst h2
    refine ⟨hev, hyield, hnoop, ?_⟩
    intro l hl
    simp [AbstractBlockchain.add_event_listener] at hl
    rcases hl with hl | hl
    · exact hlis l hl
    · subst hl
      exact ⟨Nat.le_refl _, (List.drop_length _).symm⟩
  | dropListener i =>
    injection hok with h2
    subst h2
    refine ⟨hev, hyield, hnoop, ?_⟩
    intro l hl
    obtain ⟨l0, hl0, hrec, hreg⟩ := mem_closeReceiver _ _ _ hl
    rw [hrec, hreg]
    exact hlis l0 hl0
  | forwardTime d =>
    injection hok with h2
    subst h2
    exact ⟨hev, hyield, hnoop, hlis⟩
  | addAccount address amount =>
    injection hok with h2
    subst h2
    exact ⟨hev, hyield, hnoop, hlis⟩
  | poll =>
    unfold applyOp at hok
    obtain ⟨hdl, hdy, hdt, hcase⟩ := dispatch_spec hash c
    rcases hcase with ⟨hde, hda⟩ | ⟨ev, hevn, hde, hda⟩
    · have hnone : (dispatch hash c).events.getLast? = none := by
        rw [hde, hev]; rfl
      have hpn : poll_next hash c =
          .ok ({ dispatch hash c with wakerRegistered := true }, .pending) := by
        unfold poll_next pollEmit
        rw [hnone]
      rw [hpn] at hok
      injection hok with h2
      subst h2
      refine ⟨?_, ?_, ?_, ?_⟩
      · simpa [hde] using hev
      · simpa [hdy, hda] using hyield
      · simpa [hda] using hnoop
      · intro l hl
        rw [hda]
        exact hlis l (by simpa [hdl] using hl)
    · have hlast : (dispatch hash c).events.getLast? = some ev := by
        rw [hde, hev]; rfl
      cases hs : sendAll (dispatch hash c).event_listeners ev with
      | error msg =>
        have hpn : poll_next hash c = .error msg := by
          unfold poll_next pollEmit
          rw [hlast]
          simp only [hs]
        rw [hpn] at hok
        cases hok
      | ok ls2 =>
        have hls2 := sendAll_ok_eq _ _ _ hs
        have hpn : poll_next hash c =
            .ok ({ dispatch hash c with
                     events := (dispatch hash c).events.dropLast
                     event_listeners := ls2
                     yieldedLog := (dispatch hash c).yieldedLog ++ [ev] },
                 .readySome ev) := by
          unfold poll_next pollEmit
          rw [hlast]
          simp only [hs]
        rw [hpn] at hok
        injection hok with h2
        subst h2
        refine ⟨?_, ?_, ?_, ?_⟩
        · simp [hde, hev]
        · simp [hdy, hda, hyield]
        · rw [hda]
          intro e he
          rcases List.mem_append.mp he with he | he
          · exact hnoop e he
          · rcases List.mem_singleton.mp he with rfl
            exact hevn
        · intro l hl
          rw [hls2] at hl
          simp only [List.mem_map] at hl
          obtain ⟨l0, hl0, rfl⟩ := hl
          have h0 := hlis l0 (by simpa [hdl] using hl0)
          refine ⟨?_, ?_⟩
          · rw [hda]
            simp only [List.length_append, List.length_singleton]
            exact Nat.le_succ_of_le h0.1
          · rw [hda, drop_append_of_le _ _ _ h0.1, ← h0.2]

theorem runFrom_preserves_inv {A : Type} [DecidableEq A] (hash : Nat → Nat)
    (c c2 : AbstractBlockchain A) (ops : List (Op A)) (h : ChainInv c)
    (hok : runFrom hash c ops = .ok c2) : ChainInv c2 := by
  induction ops generalizing c with
  | nil =>
    unfold runFrom at hok
    injection hok with h2
    subst h2
    exact h
  | cons op ops ih =>
    unfold runFrom at hok
    cases hstep : applyOp hash c op with
    | ok c3 =>
      rw [hstep] at hok
      exact ih c3 (applyOp_preserves_inv hash c c3 op h hstep) hok
    | error msg =>
      rw [hstep] at hok
      cases hok

/-- Every state a completed run ends in satisfies the invariant; a run
is rejected (errors) exactly when some poll panicked. -/
theorem run_chainInv {A : Type} [DecidableEq A] (hash : Nat → Nat)
    (rng : TestRng) (name : String) (ops : List (Op A))
    (c : AbstractBlockchain A) (hok : run hash rng name ops = .ok c) :
    ChainInv c :=
  runFrom_preserves_inv hash _ c ops (chainInv_new rng name) hok

theorem client_fst {A : Type} (c : AbstractBlockchain A)
    (failure_rate false_positive_rate : Nat) :
    (c.client failure_rate false_positive_rate).1 =
      ⟨0, (seeded_clone c.rng).1, failure_rate, false_positive_rate⟩ := rfl

theorem client_snd {A : Type} (c : AbstractBlockchain A)
    (failure_rate false_positive_rate : Nat) :
    (c.client failure_rate false_positive_rate).2 =
      { c with rng := (seeded_clone c.rng).2 } := rfl

/-! ### Claim theorems -/

/-- C1: completing a pending transfer with the correct secret (its hash
equals the stored hash lock) while the ledger time does not exceed the
stored time lock credits the recipient balance by exactly the transfer
amount, leaves every other balance alone, removes the transfer from the
pending table and returns success, after which a second completion with
the same id deterministically fails with UnknownTransfer; an unknown id
fails with UnknownTransfer, a wrong secret with InvalidSecret, and a
time beyond the time lock with Expired. -/
theorem complete_bridge_transfer_correct {A : Type} [DecidableEq A]
    (hash : Nat → Nat) (time : Nat) (sci : SmartContractInitiator A)
    (accounts : List (A × Nat)) (id secret : Nat) :
    (lookupA sci.pending_transfers id = none →
      complete_bridge_transfer hash time sci accounts id secret =
        .error .UnknownTransfer) ∧
    ∀ d, lookupA sci.pending_transfers id = some d →
      (hash secret ≠ d.hash_lock →
        complete_bridge_transfer hash time sci accounts id secret =
          .error .InvalidSecret) ∧
      (hash secret = d.hash_lock → d.time_lock < time →
        complete_bridge_transfer hash time sci accounts id secret =
          .error .Expired) ∧
      (hash secret = d.hash_lock → time ≤ d.time_lock →
        ∃ sci2 accounts2,
          complete_bridge_transfer hash time sci accounts id secret =
            .ok (sci2, accounts2) ∧
          lookupA accounts2 d.recipient_address =
            some ((lookupA accounts d.recipient_address).getD 0 + d.amount) ∧
          (∀ a, a ≠ d.recipient_address →
            lookupA accounts2 a = lookupA accounts a) ∧
          lookupA sci2.pending_transfers id = none ∧
          ∀ time2 secret2,
            complete_bridge_transfer hash time2 sci2 accounts2 id secret2 =
              .error .UnknownTransfer) := by
  constructor
  · intro hnone
    simp [complete_bridge_transfer, hnone]
  · intro d hd
    refine ⟨?_, ?_, ?_⟩
    · intro hne
      simp [complete_bridge_transfer, hd, hne]
    · intro heq hlt
      simp [complete_bridge_transfer, hd, heq, hlt]
    · intro heq hle
      have hnlt : ¬ d.time_lock < time := Nat.not_lt.mpr hle
      refine ⟨⟨eraseA sci.pending_transfers id⟩,
        insertA accounts d.recipient_address
          ((lookupA accounts d.recipient_address).getD 0 + d.amount),
        ?_, ?_, ?_, ?_, ?_⟩
      · simp [complete_bridge_transfer, hd, heq, hnlt]
      · exact lookupA_insertA_self _ _ _
      · intro a ha
        exact lookupA_insertA_ne _ _ _ _ ha
      · exact lookupA_eraseA_self _ _
      · intro time2 secret2
        simp [complete_bridge_transfer, lookupA_eraseA_self]

/-- C1 witness: a concrete successful completion and re-completion
failure, with hash modelled by Nat.succ. -/
theorem complete_bridge_transfer_correct_witness :
    ∃ sci2 accounts2,
      complete_bridge_transfer (A := Nat) Nat.succ 30
          ⟨[(5, ⟨5, 1, 2, 8, 100, 42⟩)]⟩ [] 5 7 = .ok (sci2, accounts2) ∧
      lookupA accounts2 2 = some 42 ∧
      lookupA sci2.pending_transfers 5 = none ∧
      complete_bridge_transfer (A := Nat) Nat.succ 150 sci2 accounts2 5 7 =
        .error .UnknownTransfer := by
  obtain ⟨sci2, accounts2, h1, h2, _, h4, h5⟩ :=
    ((complete_bridge_transfer_correct (A := Nat) Nat.succ 30
        ⟨[(5, ⟨5, 1, 2, 8, 100, 42⟩)]⟩ [] 5 7).2
      ⟨5, 1, 2, 8, 100, 42⟩ (by decide)).2.2 (by decide) (by decide)
  exact ⟨sci2, accounts2, h1, h2, h4, h5 150 7⟩

/-- C7: when the dispatched CompleteBridgeTransfer fails, the dispatch
leaves the whole chain unchanged apart from draining the queue head (in
particular no account balance is mutated), the poll as a whole mutates
no account and no pending record, and the failure is exactly the value
complete_bridge_transfer returns. -/
theorem complete_failure_no_mutation {A : Type} [DecidableEq A]
    (hash : Nat → Nat) (c : AbstractBlockchain A) (id secret : Nat)
    (rest : List (Transaction A)) (e : CompletionError)
    (hq : c.queue = .Initiator (.CompleteBridgeTransfer id secret) :: rest)
    (he : complete_bridge_transfer hash c.time c.initiater_contract c.accounts
      id secret = .error e) :
    dispatch hash c = { c with queue := rest } ∧
    ∀ c2 r, poll_next hash c = .ok (c2, r) →
      c2.accounts = c.accounts ∧ c2.initiater_contract = c.initiater_contract := by
  have hd : dispatch hash c = { c with queue := rest } := by
    simp [dispatch, recv_poll, hq, he]
  refine ⟨hd, ?_⟩
  intro c2 r h2
  unfold poll_next at h2
  rw [hd] at h2
  have h3 := pollEmit_preserves _ _ _ h2
  exact ⟨h3.2.1, h3.2.2.1⟩

/-- C7 witness: completing an unknown id on a funded chain drains the
queue and touches nothing else. -/
theorem complete_failure_no_mutation_witness :
    dispatch (A := Nat) Nat.succ
        { AbstractBlockchain.new ⟨0⟩ "chain" with
            queue := [.Initiator (.CompleteBridgeTransfer 9 3)]
            accounts := [(1, 5)] } =
      { AbstractBlockchain.new ⟨0⟩ "chain" with
          queue := []
          accounts := [(1, 5)] } :=
  (complete_failure_no_mutation Nat.succ
    { AbstractBlockchain.new ⟨0⟩ "chain" with
        queue := [.Initiator (.CompleteBridgeTransfer 9 3)]
        accounts := [(1, 5)] }
    9 3 [] .UnknownTransfer rfl rfl).1

/-- C9: the per-transaction drop/corrupt decision trace of a
fault-injecting client is a deterministic function of the parent RNG
state at clone time, the two rates and the ordered inputs: two clients
built by the ledger client operation from equal parent RNG states with
identical rates decide bit-identically, and so do any two clients
agreeing on RNG state and rates whatever their sender handles. -/
theorem client_reproducibility {A : Type} (p1 p2 : AbstractBlockchain A)
    (fr fpr : Nat) (hrng : p1.rng = p2.rng) (txs : List (Transaction A)) :
    clientDecisions (p1.client fr fpr).1 txs =
      clientDecisions (p2.client fr fpr).1 txs ∧
    ∀ c1 c2 : AbstractBlockchainClient A, c1.rng = c2.rng →
      c1.failure_rate = c2.failure_rate →
      c1.false_positive_rate = c2.false_positive_rate →
      clientDecisions c1 txs = clientDecisions c2 txs := by
  constructor
  · rw [client_fst, client_fst, hrng]
  · intro c1 c2 h1 h2 h3
    unfold clientDecisions
    rw [h1, h2, h3]

/-- C9 witness: two ledgers with the same RNG state but different names
hand out clients with identical decision traces. -/
theorem client_reproducibility_witness :
    clientDecisions ((AbstractBlockchain.new (A := Nat) ⟨7⟩ "a").client 1 1).1
        [.Initiator (.CompleteBridgeTransfer 0 0)] =
      clientDecisions ((AbstractBlockchain.new (A := Nat) ⟨7⟩ "b").client 1 1).1
        [.Initiator (.CompleteBridgeTransfer 0 0)] :=
  (client_reproducibility (AbstractBlockchain.new ⟨7⟩ "a")
    (AbstractBlockchain.new ⟨7⟩ "b") 1 1 rfl
    [.Initiator (.CompleteBridgeTransfer 0 0)]).1

/-- C5 (amended): in a poll cycle in which no registered listener
channel is closed, a non-empty post-dispatch event log has its most
recently appended (last) event removed, cloned to every registered
listener and yielded as the poll result; with an empty log the waker is
registered and the poll reports Pending. -/
theorem poll_cycle_lifo_emit {A : Type} [DecidableEq A] (hash : Nat → Nat)
    (c : AbstractBlockchain A)
    (hopen : ∀ l ∈ c.event_listeners, l.closed = false) :
    (∀ e rest, (dispatch hash c).events = rest ++ [e] →
      poll_next hash c = .ok
        ({ dispatch hash c with
             events := rest
             event_listeners := (dispatch hash c).event_listeners.map
               (fun l => { l with received := l.received ++ [e] })
             yieldedLog := (dispatch hash c).yieldedLog ++ [e] },
         .readySome e)) ∧
    ((dispatch hash c).events = [] →
      poll_next hash c = .ok
        ({ dispatch hash c with wakerRegistered := true }, .pending)) := by
  have hopen2 : ∀ l ∈ (dispatch hash c).event_listeners, l.closed = false := by
    intro l hl
    exact hopen l (by simpa [(dispatch_spec hash c).1] using hl)
  constructor
  · intro e rest hrest
    have hlast : (dispatch hash c).events.getLast? = some e := by
      rw [hrest]
      exact List.getLast?_concat rest
    have hdrop : (dispatch hash c).events.dropLast = rest := by
      rw [hrest]
      exact List.dropLast_concat
    have hsend := sendAll_open (dispatch hash c).event_listeners e hopen2
    unfold poll_next pollEmit
    rw [hlast]
    simp only [hsend, hdrop]
  · intro hnil
    have hnone : (dispatch hash c).events.getLast? = none := by
      rw [hnil]
      rfl
    unfold poll_next pollEmit
    rw [hnone]

/-- C5 counterexample: at a ledger whose event log is non-empty but one
of whose registered listeners has a closed channel, the poll does not
yield the pending event: it panics in the fan-out. -/
def closedListenerChain : AbstractBlockchain Nat :=
  { AbstractBlockchain.new ⟨0⟩ "chain" with
      events := [.BridgeTransferInitiated ⟨1, 1, 2, 8, 100, 42⟩]
      event_listeners := [⟨[], true, 0⟩] }

theorem poll_drops_event_on_closed_listener :
    closedListenerChain.events =
      [.BridgeTransferInitiated ⟨1, 1, 2, 8, 100, 42⟩] ∧
    poll_next Nat.succ closedListenerChain = .error "listener dropped" :=
  ⟨rfl, rfl⟩

/-- C5 witness: a lock transaction is dispatched, its event is popped,
cloned to the single open listener and yielded. -/
def liveListenerChain : AbstractBlockchain Nat :=
  { AbstractBlockchain.new ⟨0⟩ "chain" with
      queue := [.Counterparty (.LockBridgeTransfer 3 8 100 2 42)]
      event_listeners := [⟨[], false, 0⟩] }

theorem poll_cycle_lifo_emit_witness :
    poll_next Nat.succ liveListenerChain = .ok
      ({ dispatch Nat.succ liveListenerChain with
           events := []
           event_listeners := (dispatch Nat.succ liveListenerChain).event_listeners.map
             (fun l => { l with received :=
               l.received ++ [.BridgeTransferAssetsLocked ⟨3, 8, 100, 2, 42⟩] })
           yieldedLog := (dispatch Nat.succ liveListenerChain).yieldedLog ++
             [.BridgeTransferAssetsLocked ⟨3, 8, 100, 2, 42⟩] },
       .readySome (.BridgeTransferAssetsLocked ⟨3, 8, 100, 2, 42⟩)) :=
  (poll_cycle_lifo_emit Nat.succ liveListenerChain (by decide)).1
    (.BridgeTransferAssetsLocked ⟨3, 8, 100, 2, 42⟩) [] rfl

/-- C2: delivering to a closed listener aborts the poll cycle: with one
open and one closed listener registered and an event produced by the
dispatched lock transaction, the poll panics (the expect on
unbounded_send) instead of skipping the dead listener and yielding the
event to the remaining listener and the direct poller. -/
def panicFanoutChain : AbstractBlockchain Nat :=
  { AbstractBlockchain.new ⟨0⟩ "chain" with
      queue := [.Counterparty (.LockBridgeTransfer 3 8 100 2 42)]
      event_listeners := [⟨[], false, 0⟩, ⟨[], true, 0⟩] }

theorem poll_panics_on_closed_listener :
    poll_next Nat.succ panicFanoutChain = .error "listener dropped" := rfl

/-- C3: with every sender handle dropped (the queue closed) and nothing
left to yield, poll_next still reports Pending rather than Ready(None),
and the Future wrapper therefore does not complete: queue closure does
not terminate the stream. -/
def closedQueueChain : AbstractBlockchain Nat :=
  { AbstractBlockchain.new ⟨0⟩ "chain" with queueClosed := true }

theorem queue_closure_poll_pending :
    poll_next Nat.succ closedQueueChain =
      .ok ({ closedQueueChain with wakerRegistered := true }, .pending) ∧
    futurePoll Nat.succ closedQueueChain =
      .ok ({ closedQueueChain with wakerRegistered := true }, false) :=
  ⟨rfl, rfl⟩

/-- C6: one initiation on a fresh ledger registers the pending transfer
under one freshly generated id (0 in the counter model of the unique-id
supply) but appends a BridgeTransferInitiated event carrying a second,
distinct freshly generated id (1), an id under which nothing is
pending; the id returned by the initiator contract is discarded at the
dispatch site. -/
theorem initiation_event_id_mismatch :
    ∃ c, run (A := Nat) Nat.succ ⟨0⟩ "chain"
        [.submit (.Initiator (.InitiateBridgeTransfer 1 2 100 50 8)), .poll] =
      .ok c ∧
      lookupA c.initiater_contract.pending_transfers 0 =
        some ⟨0, 1, 2, 8, 50, 100⟩ ∧
      c.appendedLog = [.BridgeTransferInitiated ⟨1, 1, 2, 8, 50, 100⟩] ∧
      lookupA c.initiater_contract.pending_transfers 1 = none := by
  refine ⟨_, rfl, ?_, ?_, ?_⟩ <;> rfl

/-- C4 counterexample: a run in which a registered receiver is dropped
and an event is then produced refutes the unconditional delivery
claim: the whole run panics in the fan-out, and at the pre-poll state
the lock event is appended by the dispatch phase yet the poll errors,
so the event reaches neither a listener nor the direct stream
consumer. -/
def droppedReceiverChain : AbstractBlockchain Nat :=
  { AbstractBlockchain.new ⟨0⟩ "chain" with
      queue := [.Counterparty (.LockBridgeTransfer 3 8 100 2 42)]
      event_listeners := [⟨[], true, 0⟩] }

theorem event_delivery_drop_counterexample :
    run (A := Nat) Nat.succ ⟨0⟩ "chain"
        [.addListener, .dropListener 0,
         .submit (.Counterparty (.LockBridgeTransfer 3 8 100 2 42)), .poll] =
      .error "listener dropped" ∧
    run (A := Nat) Nat.succ ⟨0⟩ "chain"
        [.addListener, .dropListener 0,
         .submit (.Counterparty (.LockBridgeTransfer 3 8 100 2 42))] =
      .ok droppedReceiverChain ∧
    (dispatch Nat.succ droppedReceiverChain).appendedLog =
      [.BridgeTransferAssetsLocked ⟨3, 8, 100, 2, 42⟩] ∧
    poll_next Nat.succ droppedReceiverChain = .error "listener dropped" :=
  ⟨rfl, rfl, rfl, rfl⟩

/-- C4 (amended): in every run of the ledger that completes without
the listener fan-out panic (the run returns ok, which holds exactly
when no registered receiver was dropped before an eventful poll), the
direct stream consumer receives every event in exactly the order the
events were appended (yieldedLog equals appendedLog), and every
registered listener holds exactly the events appended from its
registration point on, in append order: events are delivered to every
listener registered before they occurred and never to listeners
registered afterward. -/
theorem event_delivery_order {A : Type} [DecidableEq A] (hash : Nat → Nat)
    (rng : TestRng) (name : String) (ops : List (Op A))
    (c : AbstractBlockchain A) (h : run hash rng name ops = .ok c) :
    c.yieldedLog = c.appendedLog ∧
    ∀ l ∈ c.event_listeners,
      l.received = c.appendedLog.drop l.regIndex ∧
      l.regIndex ≤ c.appendedLog.length := by
  obtain ⟨_, hy, _, hl⟩ := run_chainInv hash rng name ops c h
  exact ⟨hy, fun l hm => ⟨(hl l hm).2, (hl l hm).1⟩⟩

/-- C4 witness: an early listener receives the lock event appended
after its registration; a listener registered after the event starts
with the empty suffix. -/
theorem event_delivery_order_witness :
    ∃ c, run (A := Nat) Nat.succ ⟨0⟩ "chain"
        [.addListener, .submit (.Counterparty (.LockBridgeTransfer 3 8 100 2 42)),
         .poll, .addListener] = .ok c ∧
      c.yieldedLog = c.appendedLog := by
  refine ⟨_, rfl, ?_⟩
  exact (event_delivery_order Nat.succ ⟨0⟩ "chain"
    [.addListener, .submit (.Counterparty (.LockBridgeTransfer 3 8 100 2 42)),
     .poll, .addListener] _ rfl).1

/-- C10: no run of the ledger ever appends the Noop variant: every
event in the appended history is BridgeTransferInitiated or
BridgeTransferAssetsLocked, every yielded event and every event held by
a listener is non-Noop, and the residual event log is empty between
poll cycles. -/
theorem no_noop_event {A : Type} [DecidableEq A] (hash : Nat → Nat)
    (rng : TestRng) (name : String) (ops : List (Op A))
    (c : AbstractBlockchain A) (h : run hash rng name ops = .ok c) :
    (∀ e ∈ c.appendedLog,
      (∃ d, e = AbstractBlockchainEvent.BridgeTransferInitiated d) ∨
      ∃ d, e = AbstractBlockchainEvent.BridgeTransferAssetsLocked d) ∧
    (∀ e ∈ c.yieldedLog, e ≠ AbstractBlockchainEvent.Noop) ∧
    (∀ l ∈ c.event_listeners, ∀ e ∈ l.received,
      e ≠ AbstractBlockchainEvent.Noop) ∧
    ∀ e ∈ c.events, e ≠ AbstractBlockchainEvent.Noop := by
  obtain ⟨hev, hy, hnoop, hl⟩ := run_chainInv hash rng name ops c h
  refine ⟨?_, ?_, ?_, ?_⟩
  · intro e he
    cases e with
    | Noop => exact absurd rfl (hnoop _ he)
    | BridgeTransferInitiated d => exact Or.inl ⟨d, rfl⟩
    | BridgeTransferAssetsLocked d => exact Or.inr ⟨d, rfl⟩
  · intro e he
    exact hnoop e (hy ▸ he)
  · intro l hm e he
    have hsub : e ∈ c.appendedLog :=
      List.drop_subset _ _ ((hl l hm).2 ▸ he)
    exact hnoop e hsub
  · intro e he
    rw [hev] at he
    cases he

/-- C10 witness: a run with one initiation and two polls yields only
protocol events. -/
theorem no_noop_event_witness :
    ∃ c, run (A := Nat) Nat.succ ⟨0⟩ "chain"
        [.submit (.Initiator (.InitiateBridgeTransfer 1 2 100 50 8)),
         .poll, .poll] = .ok c ∧
      ∀ e ∈ c.yieldedLog, e ≠ AbstractBlockchainEvent.Noop := by
  refine ⟨_, rfl, ?_⟩
  exact (no_noop_event Nat.succ ⟨0⟩ "chain"
    [.submit (.Initiator (.InitiateBridgeTransfer 1 2 100 50 8)),
     .poll, .poll] _ rfl).2.1

/-- C8 counterexample: at the 64-bit clock value 2 ^ 64 - 1 advancing
time by 1 wraps the clock to 0: the clock does not increase by exactly
the duration and in fact decreases. -/
theorem forward_time_overflow :
    (({ AbstractBlockchain.new (A := Nat) ⟨0⟩ "chain" with
          time := 2 ^ 64 - 1 }).forward_time 1).time = 0 ∧
    (({ AbstractBlockchain.new (A := Nat) ⟨0⟩ "chain" with
          time := 2 ^ 64 - 1 }).forward_time 1).time < 2 ^ 64 - 1 := by
  constructor
  · show (2 ^ 64 - 1 + 1) % 2 ^ 64 = 0
    norm_num
  · show (2 ^ 64 - 1 + 1) % 2 ^ 64 < 2 ^ 64 - 1
    norm_num

set_option maxRecDepth 4000 in
/-- C8 (amended): forward_time sets the u64 clock to
(time + d) mod 2 ^ 64, so whenever the addition does not overflow the
clock increases by exactly d and never decreases; and no operation
other than forward_time (submitting, registering a listener, funding an
account, handing out a client, or a whole poll cycle) changes the
clock. -/
theorem clock_changed_only_by_forward_time {A : Type} [DecidableEq A]
    (hash : Nat → Nat) (c : AbstractBlockchain A) (d : Nat) :
    (c.forward_time d).time = (c.time + d) % 2 ^ 64 ∧
    (c.time + d < 2 ^ 64 →
      (c.forward_time d).time = c.time + d ∧ c.time ≤ (c.forward_time d).time) ∧
    (∀ tx, ({ c with queue := c.queue ++ [tx] } : AbstractBlockchain A).time
      = c.time) ∧
    (c.add_event_listener).1.time = c.time ∧
    (∀ a amt, (c.add_account a amt).time = c.time) ∧
    (∀ fr fpr, ((c.client fr fpr).2).time = c.time) ∧
    ∀ c2 r, poll_next hash c = .ok (c2, r) → c2.time = c.time := by
  refine ⟨rfl, ?_, fun tx => rfl, rfl, fun a amt => rfl,
    fun fr fpr => by rw [client_snd], ?_⟩
  · intro h
    constructor
    · show (c.time + d) % 2 ^ 64 = c.time + d
      exact Nat.mod_eq_of_lt h
    · show c.time ≤ (c.time + d) % 2 ^ 64
      rw [Nat.mod_eq_of_lt h]
      exact Nat.le_add_right _ _
  · intro c2 r h2
    unfold poll_next at h2
    have h3 := (pollEmit_preserves _ _ _ h2).1
    rw [h3, (dispatch_spec hash c).2.2.1]

/-- C8 witness: on a fresh chain advancing by 5 gives clock 5, and a
poll leaves the clock at 0. -/
theorem clock_changed_only_by_forward_time_witness :
    ((AbstractBlockchain.new (A := Nat) ⟨0⟩ "chain").forward_time 5).time = 5 ∧
    ({ AbstractBlockchain.new (A := Nat) ⟨0⟩ "chain" with
         wakerRegistered := true }).time = 0 := by
  constructor
  · exact ((clock_changed_only_by_forward_time Nat.succ
      (AbstractBlockchain.new (A := Nat) ⟨0⟩ "chain") 5).2.1
      (by show (0 : Nat) + 5 < 2 ^ 64; norm_num)).1
  · exact (clock_changed_only_by_forward_time Nat.succ
      (AbstractBlockchain.new (A := Nat) ⟨0⟩ "chain") 5).2.2.2.2.2.2
      { AbstractBlockchain.new (A := Nat) ⟨0⟩ "chain" with
          wakerRegistered := true } .pending rfl

end Bridge
